import Mathlib

/-!
Verification development for the `uvbump` version-bumping tool.

The tool (`src/uvbump/_core.py`) reads a `project.version` string from
`pyproject.toml`, computes a new version (either an explicit string or a
bump keyword `major`/`minor`/`patch`/`bump`), validates progression and
repository cleanliness, and then writes the manifest and creates a git
commit and tag.

Versions are the `packaging.version.Version` class (PEP 440).  This file
embeds, faithfully to `packaging/version.py`:
  * the anchored `VERSION_PATTERN` regex as a deterministic parser
    (`pep440Parse`), including the normalisations applied by
    `_parse_letter_version` and `_parse_local_version`;
  * the canonical printer `Version.__str__` (`pyStr`), `base_version`,
    `major`/`minor`/`micro`, `is_prerelease`;
  * the sort key `_cmpkey` and the tuple ordering used by `__le__`.

On top of that it embeds the functions of `_core.py`:
`validate_version`, `bump_version`, `check_git_status`, and
`update_version` (the latter over an explicit world state standing for
the filesystem and git repository, whose externally-provided pieces are
modelled from the spec's external-interface section).
-/

namespace Uvbump

/-- One segment of a PEP 440 local version: a numeric segment (stored as
the parsed integer) or an alphanumeric segment (stored lowercased), as
produced by `_parse_local_version`. -/
inductive LocalSeg where
  | num (n : Nat)
  | str (s : String)
deriving DecidableEq, Repr

/-- The parsed pieces of a PEP 440 version, mirroring the `_Version`
namedtuple of `packaging/version.py`: `epoch`, `release`, `pre`, `post`,
`dev`, `local`.  In the Python code `post` is stored as the pair
`("post", n)` and `dev` as `("dev", n)` whose first component is the
constant normalised label, so only the number is kept here. -/
structure PyVersion where
  epoch : Nat
  release : List Nat
  pre : Option (String × Nat)
  post : Option Nat
  dev : Option Nat
  locl : Option (List LocalSeg)
deriving DecidableEq, Repr

/-- The digit character for `d` (meaningful for `d < 10`), as used by
Python's decimal formatting of non-negative integers. -/
def digitChar : Nat → Char
  | 0 => '0'
  | 1 => '1'
  | 2 => '2'
  | 3 => '3'
  | 4 => '4'
  | 5 => '5'
  | 6 => '6'
  | 7 => '7'
  | 8 => '8'
  | 9 => '9'
  | _ => '*'

/-- Decimal digit list of `n` (no leading zeros) with explicit fuel;
any `fuel > n` is adequate since the recursion divides by 10. -/
def natCharsF : Nat → Nat → List Char
  | 0, _ => []
  | fuel + 1, n =>
    if n < 10 then [digitChar n]
    else natCharsF fuel (n / 10) ++ [digitChar (n % 10)]

/-- Decimal digit list of `n` (no leading zeros), embedding Python's
`str(n)` / `f"{n}"` formatting of a non-negative integer. -/
def natChars (n : Nat) : List Char :=
  natCharsF (n + 1) n

/-- Python's `str(n)` for a non-negative integer `n`. -/
def natToStr (n : Nat) : String :=
  ⟨natChars n⟩

/-- Numeric value of a digit character. -/
def digitVal (c : Char) : Nat := c.toNat - 48

/-- Value of a digit string read left to right, as `int(...)` does. -/
def digitsToNat (ds : List Char) : Nat :=
  ds.foldl (fun a c => 10 * a + digitVal c) 0

/-- Split a leading run of ASCII decimal digits (the regex `[0-9]*`)
from the rest. -/
def takeDigits : List Char → List Char × List Char
  | [] => ([], [])
  | c :: cs =>
    if c.isDigit then
      let p := takeDigits cs
      (c :: p.1, p.2)
    else ([], c :: cs)

/-- Parse the regex `[0-9]+` at the head: the maximal nonempty digit
run, its value, and the remainder. -/
def parseNat? (cs : List Char) : Option (Nat × List Char) :=
  match takeDigits cs with
  | ([], _) => none
  | (d :: ds, rest) => some (digitsToNat (d :: ds), rest)

/-- Is `c` one of the separators `[-_\.]`? -/
def isSep (c : Char) : Bool :=
  c = '-' || c = '_' || c = '.'

/-- Consume one optional separator, the regex `[-_\.]?`. -/
def dropSep (cs : List Char) : List Char :=
  match cs with
  | c :: rest => if isSep c then rest else cs
  | [] => cs

/-- Match a literal (a regex alternative such as `rc` or `post`) at the
head of the input, returning the remainder. -/
def matchLit : List Char → List Char → Option (List Char)
  | [], cs => some cs
  | _ :: _, [] => none
  | l :: ls, c :: cs => if l = c then matchLit ls cs else none

/-- Match the first of a list of literal labels (longest candidates
listed first, which coincides with the regex's backtracking choice for
the label alternations of `VERSION_PATTERN`), returning the matched
label and the remainder. -/
def matchLabel : List String → List Char → Option (String × List Char)
  | [], _ => none
  | l :: ls, cs =>
    match matchLit l.data cs with
    | some rest => some (l, rest)
    | none => matchLabel ls cs

/-- Label spellings accepted by the `pre` group of `VERSION_PATTERN`,
longest-first so that e.g. `alpha1` is not cut at `a`. -/
def preLabels : List String :=
  ["alpha", "beta", "preview", "pre", "rc", "a", "b", "c"]

/-- Label normalisation of `_parse_letter_version` for pre-release
labels: `alpha → a`, `beta → b`, `c`/`pre`/`preview → rc`. -/
def normalizePre (l : String) : String :=
  if l = "alpha" then "a"
  else if l = "beta" then "b"
  else if l = "c" ∨ l = "pre" ∨ l = "preview" then "rc"
  else l

/-- The epoch group `(?:(?P<epoch>[0-9]+)!)?`: digits followed by `!`,
or nothing (position unchanged). -/
def parseEpoch (cs : List Char) : Nat × List Char :=
  match parseNat? cs with
  | some (n, rest) =>
    match rest with
    | c :: rest' => if c = '!' then (n, rest') else (0, cs)
    | [] => (0, cs)
  | none => (0, cs)

/-- The tail `(?:\.[0-9]+)*` of the release group with explicit fuel
(each consumed group is at least two characters, so any
`fuel ≥ cs.length` is adequate): repeatedly consume a dot followed by
digits. -/
def parseRelRestF : Nat → List Nat → List Char → List Nat × List Char
  | 0, acc, cs => (acc, cs)
  | fuel + 1, acc, cs =>
    match cs with
    | c :: cs' =>
      if c = '.' then
        match parseNat? cs' with
        | some (n, rest) => parseRelRestF fuel (acc ++ [n]) rest
        | none => (acc, cs)
      else (acc, cs)
    | [] => (acc, cs)

/-- The tail `(?:\.[0-9]+)*` of the release group. -/
def parseRelRest (acc : List Nat) (cs : List Char) : List Nat × List Char :=
  parseRelRestF (cs.length + 1) acc cs

/-- The release group `[0-9]+(?:\.[0-9]+)*`. -/
def parseRelease (cs : List Char) : Option (List Nat × List Char) :=
  match parseNat? cs with
  | none => none
  | some (n, rest) => some (parseRelRest [n] rest)

/-- The `pre` group `[-_\.]?(a|b|c|rc|alpha|beta|pre|preview)[-_\.]?([0-9]+)?`
with the normalisation and the implicit number 0 of
`_parse_letter_version`.  Returns `none` when the group does not match
(position unchanged by the caller). -/
def parsePre (cs : List Char) : Option ((String × Nat) × List Char) :=
  match matchLabel preLabels (dropSep cs) with
  | none => none
  | some (lab, cs2) =>
    let cs3 := dropSep cs2
    match parseNat? cs3 with
    | some (n, cs4) => some ((normalizePre lab, n), cs4)
    | none => some ((normalizePre lab, 0), cs3)

/-- Label spellings of the second `post` alternative, longest-first. -/
def postLabels : List String := ["post", "rev", "r"]

/-- The `post` group: either `-(?P<post_n1>[0-9]+)` or
`[-_\.]?(post|rev|r)[-_\.]?([0-9]+)?`; the number defaults to 0 and the
label is normalised to `post` (only the number is kept). -/
def parsePost (cs : List Char) : Option (Nat × List Char) :=
  match cs with
  | c :: cs' =>
    if c = '-' then
      match parseNat? cs' with
      | some (n, rest) => some (n, rest)
      | none => parsePostLabel cs
    else parsePostLabel cs
  | [] => parsePostLabel cs
where
  /-- The labelled alternative of the `post` group. -/
  parsePostLabel (cs : List Char) : Option (Nat × List Char) :=
    match matchLabel postLabels (dropSep cs) with
    | none => none
    | some (_, cs2) =>
      let cs3 := dropSep cs2
      match parseNat? cs3 with
      | some (n, cs4) => some (n, cs4)
      | none => some (0, cs3)

/-- The `dev` group `[-_\.]?(dev)[-_\.]?([0-9]+)?` with default 0. -/
def parseDev (cs : List Char) : Option (Nat × List Char) :=
  match matchLit "dev".data (dropSep cs) with
  | none => none
  | some cs2 =>
    let cs3 := dropSep cs2
    match parseNat? cs3 with
    | some (n, cs4) => some (n, cs4)
    | none => some (0, cs3)

/-- Is `c` allowed in a local-version segment (`[a-z0-9]`, after the
input has been lowercased)? -/
def isLocalChar (c : Char) : Bool :=
  c.isDigit || ('a' ≤ c && c ≤ 'z')

/-- Split a leading run of local-segment characters. -/
def takeLocalChars : List Char → List Char × List Char
  | [] => ([], [])
  | c :: cs =>
    if isLocalChar c then
      let p := takeLocalChars cs
      (c :: p.1, p.2)
    else ([], c :: cs)

/-- Normalise one local segment as `_parse_local_version` does: numeric
segments become integers, others stay as (already lowercased) text. -/
def mkLocalSeg (ds : List Char) : LocalSeg :=
  if ds.all Char.isDigit then .num (digitsToNat ds) else .str ⟨ds⟩

/-- The tail `(?:[-_\.][a-z0-9]+)*` of the local group, with explicit
fuel (each consumed group is at least two characters, so any
`fuel ≥ cs.length` is adequate). -/
def parseLocalRestF : Nat → List LocalSeg → List Char → List LocalSeg × List Char
  | 0, acc, cs => (acc, cs)
  | fuel + 1, acc, cs =>
    match cs with
    | c :: cs' =>
      if isSep c then
        match takeLocalChars cs' with
        | ([], _) => (acc, cs)
        | (d :: ds, rest) => parseLocalRestF fuel (acc ++ [mkLocalSeg (d :: ds)]) rest
      else (acc, cs)
    | [] => (acc, cs)

/-- The tail `(?:[-_\.][a-z0-9]+)*` of the local group. -/
def parseLocalRest (acc : List LocalSeg) (cs : List Char) :
    List LocalSeg × List Char :=
  parseLocalRestF (cs.length + 1) acc cs

/-- The local group `(?:\+(?P<local>[a-z0-9]+(?:[-_\.][a-z0-9]+)*))?`:
`none` when absent; fails the whole match when `+` is present but not
followed by a valid local version. -/
def parseLocal (cs : List Char) :
    Option (Option (List LocalSeg) × List Char) :=
  match cs with
  | c :: cs' =>
    if c = '+' then
      match takeLocalChars cs' with
      | ([], _) => none
      | (ds, rest) =>
        let p := parseLocalRest [mkLocalSeg ds] rest
        some (some p.1, p.2)
    else some (none, cs)
  | [] => some (none, cs)

/-- Python's `\s` on the ASCII range, used by the `^\s*`/`\s*$` anchors
around `VERSION_PATTERN` (non-ASCII whitespace is not modelled; no
claim involves it). -/
def isPySpace (c : Char) : Bool :=
  c = ' ' || c = '\t' || c = '\n' || c = '\r' || c = '\x0b' || c = '\x0c'

/-- ASCII lowercasing, standing for the `re.IGNORECASE` flag (every
letter in `VERSION_PATTERN` is lowercase) and the `.lower()`
normalisations of labels and local segments. -/
def lowerAscii (c : Char) : Char :=
  if 'A' ≤ c ∧ c ≤ 'Z' then Char.ofNat (c.toNat + 32) else c

/-- Core of the match: the body of `VERSION_PATTERN` after the optional
`v`, applied to the lowercased, whitespace-stripped input.  Mirrors
`Version.__init__`: regex groups in order (epoch, release, pre, post,
dev, local), then the end anchor. -/
def parseCore (cs : List Char) : Option PyVersion :=
  let (epoch, cs1) := parseEpoch cs
  match parseRelease cs1 with
  | none => none
  | some (release, cs2) =>
    let (pre, cs3) :=
      match parsePre cs2 with
      | some (p, rest) => (some p, rest)
      | none => (none, cs2)
    let (post, cs4) :=
      match parsePost cs3 with
      | some (p, rest) => (some p, rest)
      | none => (none, cs3)
    let (dev, cs5) :=
      match parseDev cs4 with
      | some (p, rest) => (some p, rest)
      | none => (none, cs4)
    match parseLocal cs5 with
    | none => none
    | some (locl, cs6) =>
      if cs6 = [] then
        some { epoch := epoch, release := release, pre := pre,
               post := post, dev := dev, locl := locl }
      else none

/-- The constructor `packaging.version.Version(s)`: strip surrounding
whitespace, match case-insensitively (modelled by lowercasing), allow a
leading `v`, then the pattern core.  Returns `none` where Python raises
`InvalidVersion`. -/
def pep440Parse (s : String) : Option PyVersion :=
  let cs0 := (s.data.map lowerAscii).dropWhile isPySpace
  let cs1 := (cs0.reverse.dropWhile isPySpace).reverse
  let cs2 := match cs1 with
    | c :: rest => if c = 'v' then rest else cs1
    | [] => cs1
  parseCore cs2

/-- `Version.major`: `release[0]` if present else 0. -/
def PyVersion.major (v : PyVersion) : Nat := v.release.getD 0 0

/-- `Version.minor`: `release[1]` if present else 0. -/
def PyVersion.minor (v : PyVersion) : Nat := v.release.getD 1 0

/-- `Version.micro`: `release[2]` if present else 0. -/
def PyVersion.micro (v : PyVersion) : Nat := v.release.getD 2 0

/-- `Version.is_prerelease`: `dev is not None or pre is not None`. -/
def PyVersion.isPre (v : PyVersion) : Bool :=
  v.dev.isSome || v.pre.isSome

/-- `".".join(str(x) for x in release)`, at the character level. -/
def relChars : List Nat → List Char
  | [] => []
  | [n] => natChars n
  | n :: r => natChars n ++ '.' :: relChars r

/-- `".".join(str(x) for x in release)`. -/
def relStr (r : List Nat) : String :=
  ⟨relChars r⟩

/-- The epoch prefix of `__str__` and `base_version`: `f"{epoch}!"`
when the epoch is nonzero, nothing otherwise. -/
def epochChars (e : Nat) : List Char :=
  if e ≠ 0 then natChars e ++ ['!'] else []

/-- `Version.base_version`: the epoch (when nonzero) and the release
segment only. -/
def PyVersion.baseVersion (v : PyVersion) : String :=
  ⟨epochChars v.epoch ++ relChars v.release⟩

/-- String form of one local segment (`str(x)`). -/
def localSegChars : LocalSeg → List Char
  | .num n => natChars n
  | .str s => s.data

/-- `".".join` over the local segments. -/
def locChars : List LocalSeg → List Char
  | [] => []
  | [a] => localSegChars a
  | a :: r => localSegChars a ++ '.' :: locChars r

/-- `Version.__str__` at the character level: epoch (when nonzero),
release, pre (label then number with no separator), `.postN`, `.devN`,
`+local`. -/
def pyChars (v : PyVersion) : List Char :=
  epochChars v.epoch
    ++ relChars v.release
    ++ (match v.pre with
        | some (l, n) => l.data ++ natChars n
        | none => [])
    ++ (match v.post with
        | some n => ".post".data ++ natChars n
        | none => [])
    ++ (match v.dev with
        | some n => ".dev".data ++ natChars n
        | none => [])
    ++ (match v.locl with
        | some segs => '+' :: locChars segs
        | none => [])

/-- `Version.__str__`. -/
def pyStr (v : PyVersion) : String :=
  ⟨pyChars v⟩

/-- Does the character list start with an ASCII digit? -/
def startsDigit : List Char → Bool
  | c :: _ => c.isDigit
  | [] => false

/-- Does the character list start with a dot? -/
def startsDot : List Char → Bool
  | c :: _ => c = '.'
  | [] => false

/-- Does the character list start with the epoch marker `!`? -/
def startsBang : List Char → Bool
  | c :: _ => c = '!'
  | [] => false

/-- The dot-prefixed tail segments of a release list:
`relChars (n :: r) = natChars n ++ relTail r`. -/
def relTail : List Nat → List Char
  | [] => []
  | n :: r => '.' :: natChars n ++ relTail r

/-- Split a leading run of ASCII letters. -/
def takeAlpha : List Char → List Char × List Char
  | [] => ([], [])
  | c :: cs =>
    if c.isAlpha then
      let p := takeAlpha cs
      (c :: p.1, p.2)
    else ([], c :: cs)

/-- The version grammar stated by the spec, defined from the spec's
words for comparison with the parser embedded from the source: "numeric
major.minor.patch, optional pre-release suffix of the form
alphabetic-label immediately followed by digits". -/
def specGrammarAccepts (s : String) : Bool :=
  match takeDigits s.data with
  | ([], _) => false
  | (_ :: _, r1) =>
    match r1 with
    | c1 :: r1' =>
      if c1 = '.' then
        match takeDigits r1' with
        | ([], _) => false
        | (_ :: _, r2) =>
          match r2 with
          | c2 :: r2' =>
            if c2 = '.' then
              match takeDigits r2' with
              | ([], _) => false
              | (_ :: _, r3) =>
                match r3 with
                | [] => true
                | _ :: _ =>
                  match takeAlpha r3 with
                  | ([], _) => false
                  | (_ :: _, r4) =>
                    match takeDigits r4 with
                    | ([], _) => false
                    | (_ :: _, r5) => r5 = []
            else false
          | [] => false
      else false
    | [] => false

/-! ### The sort key `_cmpkey` and the tuple order of `_BaseVersion` -/

/-- The pre component of the sort key: `NegativeInfinity` (a dev
release with no pre and no post), the pair itself, or `Infinity` (no
pre component otherwise). -/
inductive PreKey where
  | negInf
  | pair (l : String) (n : Nat)
  | inf
deriving DecidableEq, Repr

/-- The post component of the key: `NegativeInfinity` or `("post", n)`
(the constant label is dropped). -/
inductive PostKey where
  | negInf
  | pair (n : Nat)
deriving DecidableEq, Repr

/-- The dev component of the key: `("dev", n)` or `Infinity`. -/
inductive DevKey where
  | pair (n : Nat)
  | inf
deriving DecidableEq, Repr

/-- The local component of the key: `NegativeInfinity` or the tuple of
segments (each encoded by `_cmpkey` as `(i, "")` for an integer and
`(NegativeInfinity, s)` for text, so every text segment sorts below
every integer segment). -/
inductive LocalKey where
  | negInf
  | segs (l : List LocalSeg)
deriving DecidableEq, Repr

/-- Python string `<`: lexicographic on code points. -/
def charsLtB : List Char → List Char → Bool
  | [], [] => false
  | [], _ :: _ => true
  | _ :: _, [] => false
  | a :: as, b :: bs => a < b || (a = b && charsLtB as bs)

/-- Python tuple `<` on integer tuples (a strict prefix is smaller). -/
def natsLtB : List Nat → List Nat → Bool
  | [], [] => false
  | [], _ :: _ => true
  | _ :: _, [] => false
  | a :: as, b :: bs => a < b || (a = b && natsLtB as bs)

/-- `<` on pre keys: `NegativeInfinity` below everything, `Infinity`
above, pairs compared as `(label, number)` tuples. -/
def preKeyLtB : PreKey → PreKey → Bool
  | .negInf, .negInf => false
  | .negInf, _ => true
  | .pair .., .negInf => false
  | .pair l n, .pair l' n' => charsLtB l.data l'.data || (l = l' && n < n')
  | .pair .., .inf => true
  | .inf, _ => false

/-- `<` on post keys. -/
def postKeyLtB : PostKey → PostKey → Bool
  | .negInf, .negInf => false
  | .negInf, .pair _ => true
  | .pair _, .negInf => false
  | .pair n, .pair n' => n < n'

/-- `<` on dev keys. -/
def devKeyLtB : DevKey → DevKey → Bool
  | .pair n, .pair n' => n < n'
  | .pair _, .inf => true
  | .inf, _ => false

/-- `<` on one encoded local segment: `(NegativeInfinity, s)` pairs
sort below `(i, "")` pairs, text against text by string, number against
number numerically. -/
def localSegLtB : LocalSeg → LocalSeg → Bool
  | .str s, .str s' => charsLtB s.data s'.data
  | .str _, .num _ => true
  | .num _, .str _ => false
  | .num n, .num n' => n < n'

/-- Python tuple `<` on encoded local segment tuples. -/
def localSegsLtB : List LocalSeg → List LocalSeg → Bool
  | [], [] => false
  | [], _ :: _ => true
  | _ :: _, [] => false
  | a :: as, b :: bs => localSegLtB a b || (a = b && localSegsLtB as bs)

/-- `<` on local keys. -/
def localKeyLtB : LocalKey → LocalKey → Bool
  | .negInf, .negInf => false
  | .negInf, .segs _ => true
  | .segs _, .negInf => false
  | .segs a, .segs b => localSegsLtB a b

/-- The full sort key returned by `_cmpkey`. -/
structure CmpKey where
  epoch : Nat
  release : List Nat
  pre : PreKey
  post : PostKey
  dev : DevKey
  locl : LocalKey
deriving DecidableEq, Repr

/-- `_cmpkey`: trim trailing zeros from the release, encode absent
pre/post/dev/local with the infinities exactly as the source does. -/
def cmpkey (v : PyVersion) : CmpKey where
  epoch := v.epoch
  release := (v.release.reverse.dropWhile (· = 0)).reverse
  pre :=
    match v.pre, v.post, v.dev with
    | none, none, some _ => .negInf
    | none, _, _ => .inf
    | some (l, n), _, _ => .pair l n
  post :=
    match v.post with
    | none => .negInf
    | some n => .pair n
  dev :=
    match v.dev with
    | none => .inf
    | some n => .pair n
  locl :=
    match v.locl with
    | none => .negInf
    | some segs => .segs segs

/-- Python tuple `<` on whole sort keys (lexicographic over the six
components). -/
def keyLtB (a b : CmpKey) : Bool :=
  a.epoch < b.epoch ||
    (a.epoch = b.epoch &&
      (natsLtB a.release b.release ||
        (a.release = b.release &&
          (preKeyLtB a.pre b.pre ||
            (a.pre = b.pre &&
              (postKeyLtB a.post b.post ||
                (a.post = b.post &&
                  (devKeyLtB a.dev b.dev ||
                    (a.dev = b.dev &&
                      localKeyLtB a.locl b.locl)))))))))

/-- `Version.__le__`: key `<` or key `=`. -/
def pyLeB (a b : PyVersion) : Bool :=
  keyLtB (cmpkey a) (cmpkey b) || cmpkey a = cmpkey b

/-! ### The functions of `src/uvbump/_core.py` -/

/-- The distinct `raise UvbumpError(...)` sites of `_core.py`, one
constructor per message (the Python code has a single exception class
and distinguishes failures only by the message text; the payloads are
the interpolated values). -/
inductive UvbumpError where
  /-- "pyproject.toml not found in ..." -/
  | pyprojectNotFound
  /-- "project.version not found in pyproject.toml" -/
  | projectVersionNotFound
  /-- "Invalid version format: \x7bversion_str\x7d" -/
  | invalidVersionFormat (s : String)
  /-- "Cannot bump pre-release version without pre-release number" -/
  | cannotBumpWithoutPreNumber
  /-- "Unknown bump type: \x7bbump_type\x7d" -/
  | unknownBumpType (s : String)
  /-- "New version \x7bnew\x7d must be greater than current version \x7bcur\x7d" -/
  | newVersionNotGreater (newStr cur : String)
  /-- "Repository has unstaged changes" -/
  | unstagedChanges
  /-- "Repository has staged changes" -/
  | stagedChanges
  /-- "Not a git repository" -/
  | notAGitRepository
deriving DecidableEq, Repr

/-- Exceptions that can escape the embedded functions: a domain
`UvbumpError`, a `packaging.version.InvalidVersion` propagating
uncaught (possible in principle from the `Version(...)` calls inside
`bump_version`), or an I/O error from the external manifest write. -/
inductive PyErr where
  | uvbump (e : UvbumpError)
  | invalidVersion (s : String)
  | ioError
deriving DecidableEq, Repr

/-- The `Version(s)` constructor as used inside `bump_version`:
either the parsed version or the propagating `InvalidVersion`. -/
def versionCtor (s : String) : Except PyErr PyVersion :=
  match pep440Parse s with
  | some v => .ok v
  | none => .error (.invalidVersion s)

/-- `validate_version`: `Version(version_str)`, converting
`InvalidVersion` into `UvbumpError("Invalid version format: ...")`. -/
def validate_version (version_str : String) : Except PyErr PyVersion :=
  match pep440Parse version_str with
  | some v => .ok v
  | none => .error (.uvbump (.invalidVersionFormat version_str))

/-- `bump_version(current, bump_type)` from `_core.py`, branch for
branch: the three keyword bumps re-parse an f-string built from
`major`/`minor`/`micro`; `bump` increments the pre-release number when
`current.pre` is present, raises when `current` is a pre-release without
a `pre` pair (a dev release), and otherwise equals `patch`; anything
else raises "Unknown bump type". -/
def bump_version (current : PyVersion) (bump_type : String) :
    Except PyErr PyVersion :=
  if bump_type = "major" then
    versionCtor (natToStr (current.major + 1) ++ ".0.0")
  else if bump_type = "minor" then
    versionCtor (natToStr current.major ++ "." ++ natToStr (current.minor + 1) ++ ".0")
  else if bump_type = "patch" then
    versionCtor (natToStr current.major ++ "." ++ natToStr current.minor ++ "."
      ++ natToStr (current.micro + 1))
  else if bump_type = "bump" then
    if current.isPre then
      match current.pre with
      | some (pre_type, pre_num) =>
        versionCtor (current.baseVersion ++ pre_type ++ natToStr (pre_num + 1))
      | none => .error (.uvbump .cannotBumpWithoutPreNumber)
    else
      versionCtor (natToStr current.major ++ "." ++ natToStr current.minor ++ "."
        ++ natToStr (current.micro + 1))
  else
    .error (.uvbump (.unknownBumpType bump_type))

/-- The observable git repository state.  The two validation flags are
the spec's `RepositoryState` booleans: `unstaged` stands for the
`repo.is_dirty(untracked_files=False)` observation and `staged` for a
nonempty `repo.index.diff("HEAD")` (both external library calls,
modelled from the spec's repository-capability interface).  `commits`
and `tags` record the mutations `index.commit` and `create_tag`
perform, in order. -/
structure GitRepo where
  unstaged : Bool
  staged : Bool
  commits : List String
  tags : List String
deriving DecidableEq, Repr

/-- `check_git_status(repo)`: unstaged changes first, staged second. -/
def check_git_status (repo : GitRepo) : Except PyErr Unit :=
  if repo.unstaged then .error (.uvbump .unstagedChanges)
  else if repo.staged then .error (.uvbump .stagedChanges)
  else .ok ()

/-- The parsed `pyproject.toml` mapping, as far as `_core.py` looks at
it: the `project.version` field (absent when the `project` table or its
`version` key is missing) and an abstract fingerprint of every other
part of the document, which `update_version` carries through the
write untouched. -/
structure TomlDoc where
  projectVersion : Option String
  rest : Nat
deriving DecidableEq, Repr

/-- The world an invocation of `update_version` acts on: the manifest
file (`none` when `pyproject.toml` does not exist), the repository
(`none` when the directory is not a git repository), and `saveOk`.

`saveOk` is modelled from the spec: whether the external
`save_pyproject_toml` write succeeds on this run.  Per the spec's
external-interface contract the write is atomic — it either fully
succeeds or raises leaving the manifest unchanged. -/
structure World where
  pyproject : Option TomlDoc
  repo : Option GitRepo
  saveOk : Bool
deriving DecidableEq, Repr

/-- The `VersionInfo` dataclass (the `path` field, a filesystem detail
constant across one invocation, is not modelled). -/
structure VersionInfo where
  old_version : String
  new_version : String
  commit_message : String
  tag : String
deriving DecidableEq, Repr

/-- `update_version(new_version, test_tag, dry_run)` over an explicit
world, statement for statement: load and check the manifest, validate
the current version, resolve the requested version (keyword via
`bump_version`, otherwise `validate_version`; the argument is always a
string here, so the `isinstance` branch taken is the string one), check
progression with `<=`, require a repository and a clean status, then —
unless `dry_run` — write the manifest and create the commit and the
tag.  The returned world is the input world updated by exactly the
mutations that executed before returning or raising. -/
def update_version (new_version : String) (test_tag dry_run : Bool)
    (w : World) : Except PyErr VersionInfo × World :=
  match w.pyproject with
  | none => (.error (.uvbump .pyprojectNotFound), w)
  | some data =>
    match data.projectVersion with
    | none => (.error (.uvbump .projectVersionNotFound), w)
    | some current_version_str =>
      match validate_version current_version_str with
      | .error e => (.error e, w)
      | .ok current_version =>
        match (if new_version ∈ ["major", "minor", "patch", "bump"] then
                 bump_version current_version new_version
               else
                 validate_version new_version) with
        | .error e => (.error e, w)
        | .ok new_version_obj =>
          if pyLeB new_version_obj current_version then
            (.error (.uvbump (.newVersionNotGreater (pyStr new_version_obj)
              (pyStr current_version))), w)
          else
            match w.repo with
            | none => (.error (.uvbump .notAGitRepository), w)
            | some repo =>
              match check_git_status repo with
              | .error e => (.error e, w)
              | .ok _ =>
                let new_version_str := pyStr new_version_obj
                let commit_message := new_version_str
                let tag := if test_tag then "test-" ++ new_version_str
                           else "v" ++ new_version_str
                let version_info : VersionInfo :=
                  { old_version := current_version_str
                    new_version := new_version_str
                    commit_message := commit_message
                    tag := tag }
                if dry_run then (.ok version_info, w)
                else if w.saveOk then
                  (.ok version_info,
                   { w with
                     pyproject := some { data with projectVersion := some new_version_str }
                     repo := some { repo with
                                    commits := repo.commits ++ [commit_message]
                                    tags := repo.tags ++ [tag] } })
                else
                  (.error .ioError, w)

/-! ### Supporting lemmas: digits and decimal formatting -/

theorem digitChar_facts {d : Nat} (h : d < 10) :
    (digitChar d).isDigit = true ∧ lowerAscii (digitChar d) = digitChar d ∧
      isPySpace (digitChar d) = false ∧ isSep (digitChar d) = false ∧
      digitVal (digitChar d) = d := by
  interval_cases d <;> exact ⟨by decide, by decide, by decide, by decide, by decide⟩

theorem digit_ne {c c₀ : Char} (h : c.isDigit = true) (h₀ : c₀.isDigit = false) :
    c ≠ c₀ := by
  intro he
  rw [he] at h
  exact absurd h (by rw [h₀]; simp)

theorem digitsToNat_snoc (xs : List Char) (c : Char) :
    digitsToNat (xs ++ [c]) = 10 * digitsToNat xs + digitVal c := by
  simp [digitsToNat, List.foldl_append]

theorem natCharsF_spec : ∀ fuel n, n < fuel →
    natCharsF fuel n ≠ [] ∧ digitsToNat (natCharsF fuel n) = n ∧
      ∀ c ∈ natCharsF fuel n, ∃ d, d < 10 ∧ c = digitChar d := by
  intro fuel
  induction fuel with
  | zero => intro n h; omega
  | succ fuel ih =>
    intro n h
    rw [natCharsF]
    split
    · rename_i h10
      refine ⟨by simp, ?_, ?_⟩
      · simp [digitsToNat, (digitChar_facts h10).2.2.2.2]
      · intro c hc
        simp at hc
        exact ⟨n, h10, hc⟩
    · rename_i h10
      have hq := ih (n / 10) (by omega)
      refine ⟨by simp, ?_, ?_⟩
      · rw [digitsToNat_snoc, hq.2.1, (digitChar_facts (Nat.mod_lt n (by omega))).2.2.2.2]
        omega
      · intro c hc
        rcases List.mem_append.mp hc with hc | hc
        · exact hq.2.2 c hc
        · simp at hc
          exact ⟨n % 10, Nat.mod_lt n (by omega), hc⟩

theorem natChars_zero : natChars 0 = ['0'] := rfl

theorem natChars_ne_nil (n : Nat) : natChars n ≠ [] :=
  (natCharsF_spec (n + 1) n (by omega)).1

theorem digitsToNat_natChars (n : Nat) : digitsToNat (natChars n) = n :=
  (natCharsF_spec (n + 1) n (by omega)).2.1

theorem natChars_mem (n : Nat) : ∀ c ∈ natChars n, ∃ d, d < 10 ∧ c = digitChar d :=
  (natCharsF_spec (n + 1) n (by omega)).2.2

theorem natChars_isDigit (n : Nat) : ∀ c ∈ natChars n, c.isDigit = true := by
  intro c hc
  obtain ⟨d, hd, rfl⟩ := natChars_mem n c hc
  exact (digitChar_facts hd).1

theorem natChars_good (n : Nat) :
    ∀ c ∈ natChars n, lowerAscii c = c ∧ isPySpace c = false := by
  intro c hc
  obtain ⟨d, hd, rfl⟩ := natChars_mem n c hc
  exact ⟨(digitChar_facts hd).2.1, (digitChar_facts hd).2.2.1⟩

theorem startsDigit_natChars (n : Nat) (rest : List Char) :
    startsDigit (natChars n ++ rest) = true := by
  obtain ⟨d, ds, hds⟩ := List.exists_cons_of_ne_nil (natChars_ne_nil n)
  rw [hds]
  exact natChars_isDigit n d (by rw [hds]; exact List.mem_cons_self _ _)

theorem takeDigits_append {ds : List Char} (rest : List Char)
    (hds : ∀ c ∈ ds, c.isDigit = true) (hr : startsDigit rest = false) :
    takeDigits (ds ++ rest) = (ds, rest) := by
  induction ds with
  | nil =>
    simp only [List.nil_append]
    cases rest with
    | nil => rfl
    | cons c t =>
      simp only [startsDigit] at hr
      simp [takeDigits, hr]
  | cons d ds ih =>
    have hd : d.isDigit = true := hds d (List.mem_cons_self _ _)
    simp only [List.cons_append, takeDigits, hd, if_true]
    have := ih (fun c hc => hds c (List.mem_cons_of_mem _ hc))
    simp only [List.append_eq] at this ⊢
    rw [this]

theorem parseNat?_natChars (n : Nat) {rest : List Char}
    (hr : startsDigit rest = false) :
    parseNat? (natChars n ++ rest) = some (n, rest) := by
  obtain ⟨d, ds, hds⟩ := List.exists_cons_of_ne_nil (natChars_ne_nil n)
  unfold parseNat?
  rw [takeDigits_append rest (natChars_isDigit n) hr, hds]
  simp only
  rw [← hds, digitsToNat_natChars]

/-! ### Supporting lemmas: separators, literals and label matching -/

theorem isSep_of_digit {c : Char} (h : c.isDigit = true) : isSep c = false := by
  have h1 : c ≠ '-' := digit_ne h (by decide)
  have h2 : c ≠ '_' := digit_ne h (by decide)
  have h3 : c ≠ '.' := digit_ne h (by decide)
  simp [isSep, h1, h2, h3]

theorem dropSep_digit {cs : List Char} (h : startsDigit cs = true) :
    dropSep cs = cs := by
  cases cs with
  | nil => rfl
  | cons c t =>
    simp only [startsDigit] at h
    simp [dropSep, isSep_of_digit h]

theorem matchLit_self (l rest : List Char) : matchLit l (l ++ rest) = some rest := by
  induction l with
  | nil => rfl
  | cons c l ih => simp [matchLit, ih]

theorem matchLit_nil {l : List Char} (h : l ≠ []) : matchLit l [] = none := by
  cases l with
  | nil => exact absurd rfl h
  | cons c t => rfl

theorem matchLit_digit_stop {c : Char} {l cs : List Char} (hc : c.isDigit = false)
    (hcs : startsDigit cs = true) : matchLit (c :: l) cs = none := by
  cases cs with
  | nil => simp [startsDigit] at hcs
  | cons d t =>
    simp only [startsDigit] at hcs
    have hne : c ≠ d := fun he => by rw [he, hcs] at hc; cases hc
    simp [matchLit, hne]

theorem matchLit_stuck {c : Char} {l rest : List Char} (hc : c.isDigit = false)
    (hr : startsDigit rest = true ∨ rest = []) : matchLit (c :: l) rest = none := by
  rcases hr with hr | rfl
  · exact matchLit_digit_stop hc hr
  · exact matchLit_nil (by simp)

theorem matchLabel_preLabels {l : String} (hl : l ∈ preLabels) {rest : List Char}
    (hr : startsDigit rest = true ∨ rest = []) :
    matchLabel preLabels (l.data ++ rest) = some (l, rest) := by
  fin_cases hl
  · -- "alpha"
    simp [matchLabel, preLabels, matchLit]
  · -- "beta"
    have h1 : matchLit ['e', 't', 'a'] rest = none := matchLit_stuck (by decide) hr
    simp [matchLabel, preLabels, matchLit, h1]
  · -- "preview"
    simp [matchLabel, preLabels, matchLit]
  · -- "pre"
    have h1 : matchLit ['v', 'i', 'e', 'w'] rest = none := matchLit_stuck (by decide) hr
    simp [matchLabel, preLabels, matchLit, h1]
  · -- "rc"
    simp [matchLabel, preLabels, matchLit]
  · -- "a"
    have h1 : matchLit ['l', 'p', 'h', 'a'] rest = none := matchLit_stuck (by decide) hr
    simp [matchLabel, preLabels, matchLit, h1]
  · -- "b"
    have h1 : matchLit ['e', 't', 'a'] rest = none := matchLit_stuck (by decide) hr
    simp [matchLabel, preLabels, matchLit, h1]
  · -- "c"
    simp [matchLabel, preLabels, matchLit]

theorem startsDigit_natChars' (n : Nat) : startsDigit (natChars n) = true := by
  have := startsDigit_natChars n []
  simpa using this

theorem label_starts {l : String} (hl : l ∈ preLabels) (X : List Char) :
    startsDigit (l.data ++ X) = false ∧ startsDot (l.data ++ X) = false ∧
      startsBang (l.data ++ X) = false := by
  fin_cases hl <;> exact ⟨by simp [startsDigit], by simp [startsDot], by simp [startsBang]⟩

theorem parsePre_label {l : String} (hl : l ∈ preLabels) (n : Nat) :
    parsePre (l.data ++ natChars n) = some ((normalizePre l, n), []) := by
  have hsep : dropSep (l.data ++ natChars n) = l.data ++ natChars n := by
    fin_cases hl <;> simp [dropSep, isSep]
  have hnum : parseNat? (natChars n) = some (n, []) := by
    have := @parseNat?_natChars n [] rfl
    simpa using this
  unfold parsePre
  rw [hsep, matchLabel_preLabels hl (Or.inl (startsDigit_natChars' n))]
  simp only [dropSep_digit (startsDigit_natChars' n), hnum]

theorem normalizePre_abc {l : String} (h : l ∈ (["a", "b", "rc"] : List String)) :
    normalizePre l = l := by
  fin_cases h <;> rfl

/-! ### Supporting lemmas: epoch and release parsing -/

theorem parseEpoch_no_bang (n : Nat) {rest : List Char}
    (h1 : startsDigit rest = false) (hb : startsBang rest = false) :
    parseEpoch (natChars n ++ rest) = (0, natChars n ++ rest) := by
  unfold parseEpoch
  rw [parseNat?_natChars n h1]
  cases rest with
  | nil => rfl
  | cons c t =>
    have hb' : ¬ c = '!' := by simpa [startsBang] using hb
    simp [hb']

theorem parseEpoch_bang (e : Nat) (rest : List Char) :
    parseEpoch (natChars e ++ '!' :: rest) = (e, rest) := by
  unfold parseEpoch
  rw [parseNat?_natChars e (by simp [startsDigit])]
  simp

theorem relChars_cons (n : Nat) (r : List Nat) :
    relChars (n :: r) = natChars n ++ relTail r := by
  induction r generalizing n with
  | nil => simp [relChars, relTail]
  | cons m r ih => simp [relChars, relTail, ih]

theorem startsDigit_relTail (r : List Nat) {rest : List Char}
    (h : startsDigit rest = false) : startsDigit (relTail r ++ rest) = false := by
  cases r with
  | nil => simpa [relTail]
  | cons m r' => simp [relTail, startsDigit]

theorem startsBang_relTail (r : List Nat) {rest : List Char}
    (h : startsBang rest = false) : startsBang (relTail r ++ rest) = false := by
  cases r with
  | nil => simpa [relTail]
  | cons m r' => simp [relTail, startsBang]

theorem parseRelRestF_relTail (r : List Nat) : ∀ fuel (acc : List Nat)
    (rest : List Char), (relTail r ++ rest).length < fuel →
    startsDot rest = false → startsDigit rest = false →
    parseRelRestF fuel acc (relTail r ++ rest) = (acc ++ r, rest) := by
  induction r with
  | nil =>
    intro fuel acc rest hf h1 h2
    simp only [relTail, List.nil_append] at hf ⊢
    cases fuel with
    | zero => omega
    | succ fuel =>
      cases rest with
      | nil => simp [parseRelRestF]
      | cons c t =>
        have h1' : ¬ c = '.' := by simpa [startsDot] using h1
        simp [parseRelRestF, h1']
  | cons n r ih =>
    intro fuel acc rest hf h1 h2
    have hshape : relTail (n :: r) ++ rest = '.' :: (natChars n ++ (relTail r ++ rest)) := by
      simp [relTail]
    rw [hshape] at hf ⊢
    cases fuel with
    | zero => omega
    | succ fuel =>
      have hlen : (relTail r ++ rest).length < fuel := by
        simp only [List.length_cons, List.length_append] at hf
        have := List.length_pos.mpr (natChars_ne_nil n)
        simp only [List.length_append]
        omega
      have hx := parseNat?_natChars n (startsDigit_relTail r h2)
      have hstep : parseRelRestF (fuel + 1) acc ('.' :: (natChars n ++ (relTail r ++ rest)))
          = parseRelRestF fuel (acc ++ [n]) (relTail r ++ rest) := by
        simp [parseRelRestF, hx]
      rw [hstep, ih fuel (acc ++ [n]) rest hlen h1 h2]
      simp

theorem parseRelease_cons (n : Nat) (r : List Nat) {rest : List Char}
    (h1 : startsDot rest = false) (h2 : startsDigit rest = false) :
    parseRelease (relChars (n :: r) ++ rest) = some (n :: r, rest) := by
  rw [relChars_cons, List.append_assoc]
  have hx := parseNat?_natChars n (startsDigit_relTail r h2)
  have hr := parseRelRestF_relTail r ((relTail r).length + rest.length + 1) [n] rest
    (by simp) h1 h2
  simp [parseRelease, parseRelRest, hx, hr]

/-! ### Supporting lemmas: assembling `parseCore` and `pep440Parse` -/

theorem parsePre_nil : parsePre [] = none := rfl

theorem parsePost_nil : parsePost [] = none := rfl

theorem parseDev_nil : parseDev [] = none := rfl

theorem parseLocal_nil : parseLocal [] = some (none, []) := rfl

theorem parseEpoch_epochChars (e m : Nat) {Z : List Char}
    (hd : startsDigit Z = false) (hb : startsBang Z = false) :
    parseEpoch (epochChars e ++ (natChars m ++ Z)) = (e, natChars m ++ Z) := by
  by_cases he : e = 0
  · subst he
    simp only [epochChars, ne_eq, not_true_eq_false, if_neg, List.nil_append,
      reduceIte]
    exact parseEpoch_no_bang m hd hb
  · simp only [epochChars, ne_eq, he, not_false_eq_true, if_pos, reduceIte]
    rw [List.append_assoc]
    simp only [List.cons_append, List.nil_append]
    exact parseEpoch_bang e _

theorem relChars_append_eq (n : Nat) (r : List Nat) (tail : List Char) :
    relChars (n :: r) ++ tail = natChars n ++ (relTail r ++ tail) := by
  rw [relChars_cons, List.append_assoc]

theorem parseCore_plain (e n : Nat) (r : List Nat) :
    parseCore (epochChars e ++ relChars (n :: r)) =
      some ⟨e, n :: r, none, none, none, none⟩ := by
  have hz1 : startsDigit (relTail r) = false := by
    have := @startsDigit_relTail r [] rfl
    simpa using this
  have hz3 : startsBang (relTail r) = false := by
    have := @startsBang_relTail r [] rfl
    simpa using this
  have hep := parseEpoch_epochChars e n hz1 hz3
  have hrel := @parseRelease_cons n r [] rfl rfl
  rw [List.append_nil] at hrel
  rw [relChars_cons] at hrel ⊢
  simp [parseCore, hep, hrel, parsePre_nil, parsePost_nil, parseDev_nil,
    parseLocal_nil]

theorem parseCore_withPre (e n : Nat) (r : List Nat) {l : String}
    (hl : l ∈ preLabels) (m : Nat) :
    parseCore (epochChars e ++ (relChars (n :: r) ++ (l.data ++ natChars m))) =
      some ⟨e, n :: r, some (normalizePre l, m), none, none, none⟩ := by
  obtain ⟨hld, hldot, hlb⟩ := label_starts hl (natChars m)
  have hz1 : startsDigit (relTail r ++ (l.data ++ natChars m)) = false :=
    startsDigit_relTail r hld
  have hz3 : startsBang (relTail r ++ (l.data ++ natChars m)) = false :=
    startsBang_relTail r hlb
  have hep := parseEpoch_epochChars e n hz1 hz3
  rw [← relChars_append_eq] at hep
  have hrel := @parseRelease_cons n r (l.data ++ natChars m) hldot hld
  have hpre := parsePre_label hl m
  simp [parseCore, hep, hrel, hpre, parsePost_nil, parseDev_nil, parseLocal_nil]

theorem map_id_of_eq {f : Char → Char} : ∀ {l : List Char},
    (∀ c ∈ l, f c = c) → l.map f = l := by
  intro l h
  induction l with
  | nil => rfl
  | cons c t ih =>
    simp only [List.map_cons, h c (List.mem_cons_self _ _)]
    rw [ih (fun x hx => h x (List.mem_cons_of_mem _ hx))]

theorem dropWhile_eq_self_of_all {p : Char → Bool} {l : List Char}
    (h : ∀ c ∈ l, p c = false) : l.dropWhile p = l := by
  cases l with
  | nil => rfl
  | cons c t => simp [List.dropWhile, h c (List.mem_cons_self _ _)]

theorem pep440Parse_eq {s : String}
    (hgood : ∀ c ∈ s.data, lowerAscii c = c ∧ isPySpace c = false)
    (hd : startsDigit s.data = true) :
    pep440Parse s = parseCore s.data := by
  simp only [pep440Parse]
  rw [map_id_of_eq (fun c hc => (hgood c hc).1)]
  rw [dropWhile_eq_self_of_all (fun c hc => (hgood c hc).2)]
  rw [dropWhile_eq_self_of_all
    (fun c hc => (hgood c (List.mem_reverse.mp hc)).2)]
  rw [List.reverse_reverse]
  cases hs : s.data with
  | nil => simp [hs, startsDigit] at hd
  | cons c t =>
    simp only [hs, startsDigit] at hd
    have hv : ¬ c = 'v' := digit_ne hd (by decide)
    simp [hv]

theorem good_append {a b : List Char}
    (ha : ∀ c ∈ a, lowerAscii c = c ∧ isPySpace c = false)
    (hb : ∀ c ∈ b, lowerAscii c = c ∧ isPySpace c = false) :
    ∀ c ∈ a ++ b, lowerAscii c = c ∧ isPySpace c = false := by
  intro c hc
  rcases List.mem_append.mp hc with h | h
  exacts [ha c h, hb c h]

theorem good_relTail (r : List Nat) :
    ∀ c ∈ relTail r, lowerAscii c = c ∧ isPySpace c = false := by
  induction r with
  | nil => intro c hc; simp [relTail] at hc
  | cons n r ih =>
    intro c hc
    simp only [relTail, List.cons_append] at hc
    rcases List.mem_cons.mp hc with rfl | hc
    · exact ⟨by decide, by decide⟩
    · rcases List.mem_append.mp hc with h | h
      · exact natChars_good n c h
      · exact ih c h

theorem good_relChars (n : Nat) (r : List Nat) :
    ∀ c ∈ relChars (n :: r), lowerAscii c = c ∧ isPySpace c = false := by
  rw [relChars_cons]
  exact good_append (natChars_good n) (good_relTail r)

theorem good_epochChars (e : Nat) :
    ∀ c ∈ epochChars e, lowerAscii c = c ∧ isPySpace c = false := by
  unfold epochChars
  split
  · exact good_append (natChars_good e) (by decide)
  · intro c hc; simp at hc

theorem good_label {l : String} (hl : l ∈ preLabels) :
    ∀ c ∈ l.data, lowerAscii c = c ∧ isPySpace c = false := by
  fin_cases hl <;> decide

theorem startsDigit_epochRel (e n : Nat) (r : List Nat) (tail : List Char) :
    startsDigit (epochChars e ++ (relChars (n :: r) ++ tail)) = true := by
  unfold epochChars
  split
  · rw [List.append_assoc]
    exact startsDigit_natChars e _
  · rw [List.nil_append, relChars_append_eq]
    exact startsDigit_natChars n _

theorem pep440Parse_plain (e n : Nat) (r : List Nat) :
    pep440Parse ⟨epochChars e ++ relChars (n :: r)⟩ =
      some ⟨e, n :: r, none, none, none, none⟩ := by
  have hgood := good_append (good_epochChars e) (good_relChars n r)
  have hd : startsDigit (epochChars e ++ relChars (n :: r)) = true := by
    have := startsDigit_epochRel e n r []
    simpa using this
  rw [pep440Parse_eq hgood hd]
  exact parseCore_plain e n r

theorem pep440Parse_withPre (e n : Nat) (r : List Nat) {l : String}
    (hl : l ∈ preLabels) (m : Nat) :
    pep440Parse ⟨epochChars e ++ (relChars (n :: r) ++ (l.data ++ natChars m))⟩ =
      some ⟨e, n :: r, some (normalizePre l, m), none, none, none⟩ := by
  have hgood := good_append (good_epochChars e)
    (good_append (good_relChars n r)
      (good_append (good_label hl) (natChars_good m)))
  have hd := startsDigit_epochRel e n r (l.data ++ natChars m)
  have hgood' : ∀ c ∈ epochChars e ++ (relChars (n :: r) ++ (l.data ++ natChars m)),
      lowerAscii c = c ∧ isPySpace c = false := by
    intro c hc
    apply hgood
    simpa [List.append_assoc] using hc
  rw [pep440Parse_eq hgood' hd]
  exact parseCore_withPre e n r hl m

/-- `Version(s)` on any string printing as epoch + nonempty release. -/
theorem versionCtor_plain {s : String} (e n : Nat) (r : List Nat)
    (h : s.data = epochChars e ++ relChars (n :: r)) :
    versionCtor s = .ok ⟨e, n :: r, none, none, none, none⟩ := by
  rw [String.ext h]
  unfold versionCtor
  rw [pep440Parse_plain e n r]

/-- `Version(s)` on any string printing as epoch + nonempty release +
pre-release label + number. -/
theorem versionCtor_withPre {s : String} (e n : Nat) (r : List Nat) {l : String}
    (hl : l ∈ preLabels) (m : Nat)
    (h : s.data = epochChars e ++ (relChars (n :: r) ++ (l.data ++ natChars m))) :
    versionCtor s = .ok ⟨e, n :: r, some (normalizePre l, m), none, none, none⟩ := by
  rw [String.ext h]
  unfold versionCtor
  rw [pep440Parse_withPre e n r hl m]

theorem abc_sub_preLabels {l : String} (h : l ∈ (["a", "b", "rc"] : List String)) :
    l ∈ preLabels := by
  fin_cases h <;> decide

theorem bump_major_eq (v : PyVersion) :
    bump_version v "major" =
      .ok ⟨0, [v.major + 1, 0, 0], none, none, none, none⟩ := by
  unfold bump_version
  rw [if_pos rfl]
  exact versionCtor_plain 0 (v.major + 1) [0, 0]
    (by simp [String.data_append, natToStr, epochChars, relChars, natChars_zero])

theorem bump_minor_eq (v : PyVersion) :
    bump_version v "minor" =
      .ok ⟨0, [v.major, v.minor + 1, 0], none, none, none, none⟩ := by
  unfold bump_version
  rw [if_neg (by decide), if_pos rfl]
  exact versionCtor_plain 0 v.major [v.minor + 1, 0]
    (by simp [String.data_append, natToStr, epochChars, relChars, natChars_zero])

theorem bump_patch_eq (v : PyVersion) :
    bump_version v "patch" =
      .ok ⟨0, [v.major, v.minor, v.micro + 1], none, none, none, none⟩ := by
  unfold bump_version
  rw [if_neg (by decide), if_neg (by decide), if_pos rfl]
  exact versionCtor_plain 0 v.major [v.minor, v.micro + 1]
    (by simp [String.data_append, natToStr, epochChars, relChars, natChars_zero])

theorem keyLtB_of_epoch_lt {a b : CmpKey} (h : a.epoch < b.epoch) :
    keyLtB a b = true := by
  unfold keyLtB
  rw [Bool.or_eq_true]
  exact Or.inl (decide_eq_true h)

theorem pyLeB_of_keyLtB {a b : PyVersion} (h : keyLtB (cmpkey a) (cmpkey b) = true) :
    pyLeB a b = true := by
  unfold pyLeB
  rw [Bool.or_eq_true]
  exact Or.inl h

/-! ### The claims -/

/-- C4: the `major` keyword yields the pre-release-free version
`(major+1, 0, 0)` regardless of the input's pre-release state, `minor`
yields `(major, minor+1, 0)`, `patch` yields `(major, minor, micro+1)`
(all with no pre-release, post, dev or local component), and any string
other than the four keywords fails with the unknown-bump-type error. -/
theorem bump_keyword_spec (v : PyVersion) (s : String)
    (hs : s ∉ (["major", "minor", "patch", "bump"] : List String)) :
    bump_version v "major" = .ok ⟨0, [v.major + 1, 0, 0], none, none, none, none⟩
    ∧ bump_version v "minor" = .ok ⟨0, [v.major, v.minor + 1, 0], none, none, none, none⟩
    ∧ bump_version v "patch" = .ok ⟨0, [v.major, v.minor, v.micro + 1], none, none, none, none⟩
    ∧ bump_version v s = .error (.uvbump (.unknownBumpType s)) := by
  simp only [List.mem_cons, List.mem_singleton, not_or] at hs
  obtain ⟨hs1, hs2, hs3, hs4, -⟩ := hs
  refine ⟨bump_major_eq v, bump_minor_eq v, bump_patch_eq v, ?_⟩
  unfold bump_version
  rw [if_neg hs1, if_neg hs2, if_neg hs3, if_neg hs4]

/-- Witness for C4 at the version `1.2.3` and the unknown keyword
`"release"`, matching the repository's own unit tests. -/
theorem bump_keyword_spec_witness :
    bump_version ⟨0, [1, 2, 3], none, none, none, none⟩ "major"
        = .ok ⟨0, [2, 0, 0], none, none, none, none⟩
    ∧ bump_version ⟨0, [1, 2, 3], none, none, none, none⟩ "minor"
        = .ok ⟨0, [1, 3, 0], none, none, none, none⟩
    ∧ bump_version ⟨0, [1, 2, 3], none, none, none, none⟩ "patch"
        = .ok ⟨0, [1, 2, 4], none, none, none, none⟩
    ∧ bump_version ⟨0, [1, 2, 3], none, none, none, none⟩ "release"
        = .error (.uvbump (.unknownBumpType "release")) := by
  have h := bump_keyword_spec ⟨0, [1, 2, 3], none, none, none, none⟩ "release"
    (by decide)
  exact ⟨h.1, h.2.1, h.2.2.1, h.2.2.2⟩

/-- C3 (amended): for a current version carrying a pre-release pair
`(l, n)` (as every parsed pre-release does, with a normalised label),
the `bump` keyword yields the same epoch and release with pre-release
`(l, n+1)`; for a version with no pre-release pair and no development
component the result equals the `patch` bump; a version with no
pre-release pair but a development component (a PEP 440 dev release)
hits the defensive error instead. -/
theorem bump_auto_spec (v : PyVersion) :
    (∀ l n, v.pre = some (l, n) → l ∈ (["a", "b", "rc"] : List String) →
      v.release ≠ [] →
      bump_version v "bump" =
        .ok ⟨v.epoch, v.release, some (l, n + 1), none, none, none⟩)
    ∧ (v.pre = none → v.dev = none →
        bump_version v "bump" = bump_version v "patch")
    ∧ (v.pre = none → v.dev ≠ none →
        bump_version v "bump" = .error (.uvbump .cannotBumpWithoutPreNumber)) := by
  refine ⟨?_, ?_, ?_⟩
  · intro l n hpre hl hrel
    cases hr : v.release with
    | nil => exact absurd hr hrel
    | cons n₀ r =>
      unfold bump_version
      rw [if_neg (by decide), if_neg (by decide), if_neg (by decide), if_pos rfl,
        if_pos (by simp [PyVersion.isPre, hpre])]
      rw [hpre]
      simp only
      have := @versionCtor_withPre (v.baseVersion ++ l ++ natToStr (n + 1))
        v.epoch n₀ r l (abc_sub_preLabels hl) (n + 1)
        (by simp [PyVersion.baseVersion, String.data_append, natToStr, hr,
          List.append_assoc])
      rw [normalizePre_abc hl] at this
      rw [this, ← hr]
  · intro hpre hdev
    unfold bump_version
    rw [if_neg (by decide), if_neg (by decide), if_neg (by decide), if_pos rfl,
      if_neg (by simp [PyVersion.isPre, hpre, hdev]),
      if_neg (by decide), if_neg (by decide), if_pos rfl]
  · intro hpre hdev
    unfold bump_version
    rw [if_neg (by decide), if_neg (by decide), if_neg (by decide), if_pos rfl,
      if_pos (by simp [PyVersion.isPre, hpre]; exact Option.isSome_iff_ne_none.mpr hdev)]
    rw [hpre]

/-- Witness for C3 (amended) at `1.2.3a4` (pre-release bump to
`1.2.3a5`, as in the repository's unit test), at `1.2.3` (equal to the
patch bump), and at the dev release `1.0.0.dev1` (the defensive
error). -/
theorem bump_auto_spec_witness :
    bump_version ⟨0, [1, 2, 3], some ("a", 4), none, none, none⟩ "bump"
        = .ok ⟨0, [1, 2, 3], some ("a", 5), none, none, none⟩
    ∧ bump_version ⟨0, [1, 2, 3], none, none, none, none⟩ "bump"
        = bump_version ⟨0, [1, 2, 3], none, none, none, none⟩ "patch"
    ∧ bump_version ⟨0, [1, 0, 0], none, none, some 1, none⟩ "bump"
        = .error (.uvbump .cannotBumpWithoutPreNumber) := by
  refine ⟨?_, ?_, ?_⟩
  · exact (bump_auto_spec _).1 "a" 4 rfl (by decide) (by decide)
  · exact (bump_auto_spec _).2.1 rfl rfl
  · exact (bump_auto_spec _).2.2 rfl (by decide)

/-- C3 counterexample: the accepted dev release `1.0.0.dev1` carries no
pre-release component, yet `bump` raises the defensive error instead of
returning the patch bump `1.0.1`. -/
theorem bump_auto_counterexample :
    pep440Parse "1.0.0.dev1" = some ⟨0, [1, 0, 0], none, none, some 1, none⟩
    ∧ (⟨0, [1, 0, 0], none, none, some 1, none⟩ : PyVersion).pre = none
    ∧ bump_version ⟨0, [1, 0, 0], none, none, some 1, none⟩ "bump"
        = .error (.uvbump .cannotBumpWithoutPreNumber)
    ∧ bump_version ⟨0, [1, 0, 0], none, none, some 1, none⟩ "patch"
        = .ok ⟨0, [1, 0, 1], none, none, none, none⟩ := by
  refine ⟨by decide, rfl, rfl, rfl⟩

/-- C10: the defensive branch of `bump_version` is reachable through
the public interface: the accepted input `1.0.0.dev1` parses to a
version that `is_prerelease` counts as a pre-release while its `pre`
pair is absent, so `bump` raises the "Cannot bump pre-release version
without pre-release number" error. -/
theorem dev_release_reaches_defensive_branch :
    pep440Parse "1.0.0.dev1" = some ⟨0, [1, 0, 0], none, none, some 1, none⟩
    ∧ (⟨0, [1, 0, 0], none, none, some 1, none⟩ : PyVersion).isPre = true
    ∧ (⟨0, [1, 0, 0], none, none, some 1, none⟩ : PyVersion).pre = none
    ∧ bump_version ⟨0, [1, 0, 0], none, none, some 1, none⟩ "bump"
        = .error (.uvbump .cannotBumpWithoutPreNumber) :=
  ⟨by decide, rfl, rfl, rfl⟩

/-- Conversion from a parse fact to a `validate_version` fact. -/
theorem validate_of_parse {s : String} {v : PyVersion}
    (h : pep440Parse s = some v) : validate_version s = .ok v := by
  unfold validate_version
  rw [h]

/-- C2 counterexample: the code accepts `1.2`, which is outside the
spec's stated grammar, and rejects `1.2.3q1`, which is inside it. -/
theorem validate_grammar_counterexample :
    validate_version "1.2" = .ok ⟨0, [1, 2], none, none, none, none⟩
    ∧ specGrammarAccepts "1.2" = false
    ∧ specGrammarAccepts "1.2.3q1" = true
    ∧ validate_version "1.2.3q1" = .error (.uvbump (.invalidVersionFormat "1.2.3q1")) :=
  ⟨rfl, rfl, rfl, rfl⟩

/-- C2 (amended): `validate_version` succeeds exactly when the string
is a valid PEP 440 version (third conjunct), a set incomparable with
the spec's stated grammar; every `major.minor.patch` numeral triple is
accepted, as is every such triple followed by one of the PEP 440
pre-release spellings and a number, with the label normalised. -/
theorem validate_version_spec (a b c m : Nat) {l : String} (hl : l ∈ preLabels) :
    validate_version (natToStr a ++ "." ++ natToStr b ++ "." ++ natToStr c)
      = .ok ⟨0, [a, b, c], none, none, none, none⟩
    ∧ validate_version
        (natToStr a ++ "." ++ natToStr b ++ "." ++ natToStr c ++ l ++ natToStr m)
      = .ok ⟨0, [a, b, c], some (normalizePre l, m), none, none, none⟩
    ∧ ∀ s, (∃ v, validate_version s = .ok v ∧ pep440Parse s = some v)
        ∨ (validate_version s = .error (.uvbump (.invalidVersionFormat s))
            ∧ pep440Parse s = none) := by
  refine ⟨?_, ?_, ?_⟩
  · apply validate_of_parse
    have h : (natToStr a ++ "." ++ natToStr b ++ "." ++ natToStr c) =
        (⟨epochChars 0 ++ relChars [a, b, c]⟩ : String) := by
      apply String.ext
      simp [String.data_append, natToStr, epochChars, relChars, natChars_zero]
    rw [h]
    exact pep440Parse_plain 0 a [b, c]
  · apply validate_of_parse
    have h : (natToStr a ++ "." ++ natToStr b ++ "." ++ natToStr c ++ l ++ natToStr m) =
        (⟨epochChars 0 ++ (relChars [a, b, c] ++ (l.data ++ natChars m))⟩ : String) := by
      apply String.ext
      simp [String.data_append, natToStr, epochChars, relChars, natChars_zero,
        List.append_assoc]
    rw [h]
    exact pep440Parse_withPre 0 a [b, c] hl m
  · intro s
    cases hp : pep440Parse s with
    | some v => exact Or.inl ⟨v, validate_of_parse hp, rfl⟩
    | none =>
      refine Or.inr ⟨?_, rfl⟩
      unfold validate_version
      rw [hp]

/-- Witness for C2 (amended) at `1.2.3`, `10.20.30rc7` and
`1.2.3alpha1` (the latter normalising to label `a`). -/
theorem validate_version_spec_witness :
    validate_version "1.2.3" = .ok ⟨0, [1, 2, 3], none, none, none, none⟩
    ∧ validate_version "10.20.30rc7"
        = .ok ⟨0, [10, 20, 30], some ("rc", 7), none, none, none⟩
    ∧ validate_version "1.2.3alpha1"
        = .ok ⟨0, [1, 2, 3], some ("a", 1), none, none, none⟩ := by
  refine ⟨?_, ?_, ?_⟩
  · exact (@validate_version_spec 1 2 3 0 "a" (by decide)).1
  · exact (@validate_version_spec 10 20 30 7 "rc" (by decide)).2.1
  · exact (@validate_version_spec 1 2 3 1 "alpha" (by decide)).2.1

/-- C8 counterexample: `1.2.3alpha1` is a valid version string inside
the stated grammar (alphabetic label immediately followed by digits),
but re-serialising its parse yields the normalised `1.2.3a1`, not the
input. -/
theorem roundtrip_counterexample :
    specGrammarAccepts "1.2.3alpha1" = true
    ∧ pep440Parse "1.2.3alpha1" = some ⟨0, [1, 2, 3], some ("a", 1), none, none, none⟩
    ∧ pyStr ⟨0, [1, 2, 3], some ("a", 1), none, none, none⟩ = "1.2.3a1"
    ∧ ("1.2.3a1" : String) ≠ "1.2.3alpha1" :=
  ⟨rfl, by decide, rfl, by decide⟩

/-- C8 (amended): round-trip `to_string (parse s) = s` holds for every
canonical string: `major.minor.patch` in minimal decimal form, with an
optional pre-release suffix whose label is one of the normalised
spellings `a`, `b`, `rc` followed by a minimal-decimal number.  Stated
as: parsing the canonical printout of such a version returns the
version itself, hence printing the parse reproduces the string. -/
theorem roundtrip_canonical (v : PyVersion) (a b c : Nat)
    (hep : v.epoch = 0) (hrel : v.release = [a, b, c])
    (hpre : v.pre = none ∨
      ∃ l n, v.pre = some (l, n) ∧ l ∈ (["a", "b", "rc"] : List String))
    (hpost : v.post = none) (hdev : v.dev = none) (hlocl : v.locl = none) :
    pep440Parse (pyStr v) = some v
    ∧ Option.map pyStr (pep440Parse (pyStr v)) = some (pyStr v) := by
  have hmain : pep440Parse (pyStr v) = some v := by
    obtain ⟨ep, rel, pre, post, dev, locl⟩ := v
    simp only at hep hrel hpost hdev hlocl
    subst hep hrel hpost hdev hlocl
    rcases hpre with hpre | ⟨l, n, hpre, hl⟩
    · simp only at hpre
      subst hpre
      have h : pyStr ⟨0, [a, b, c], none, none, none, none⟩ =
          (⟨epochChars 0 ++ relChars [a, b, c]⟩ : String) := by
        apply String.ext
        simp [pyStr, pyChars]
      rw [h]
      exact pep440Parse_plain 0 a [b, c]
    · simp only at hpre
      subst hpre
      have h : pyStr ⟨0, [a, b, c], some (l, n), none, none, none⟩ =
          (⟨epochChars 0 ++ (relChars [a, b, c] ++ (l.data ++ natChars n))⟩ : String) := by
        apply String.ext
        simp [pyStr, pyChars, natToStr, List.append_assoc]
      rw [h, pep440Parse_withPre 0 a [b, c] (abc_sub_preLabels hl) n,
        normalizePre_abc hl]
  exact ⟨hmain, by rw [hmain]; rfl⟩

/-- Witness for C8 (amended) at `1.2.3` and `1.2.3rc4`. -/
theorem roundtrip_canonical_witness :
    pep440Parse (pyStr ⟨0, [1, 2, 3], none, none, none, none⟩)
      = some ⟨0, [1, 2, 3], none, none, none, none⟩
    ∧ pyStr ⟨0, [1, 2, 3], none, none, none, none⟩ = "1.2.3"
    ∧ pep440Parse (pyStr ⟨0, [1, 2, 3], some ("rc", 4), none, none, none⟩)
      = some ⟨0, [1, 2, 3], some ("rc", 4), none, none, none⟩
    ∧ pyStr ⟨0, [1, 2, 3], some ("rc", 4), none, none, none⟩ = "1.2.3rc4" := by
  refine ⟨?_, rfl, ?_, rfl⟩
  · exact (roundtrip_canonical _ 1 2 3 rfl rfl (Or.inl rfl) rfl rfl rfl).1
  · exact (roundtrip_canonical _ 1 2 3 rfl rfl
      (Or.inr ⟨"rc", 4, rfl, by decide⟩) rfl rfl rfl).1

/-- C5: with the manifest loaded, the current version parsed and the
requested version resolved, `update_version` fails with the
version-not-advancing error — leaving the world untouched — exactly
when the resolved version is `<=` the current one under PEP 440
ordering (i.e. not strictly greater); the check thus runs before any
mutation, regardless of `test_tag` and `dry_run`. -/
theorem progression_guard (w : World) (data : TomlDoc) (s : String)
    (cur newObj : PyVersion) (nv : String) (t d : Bool)
    (hpy : w.pyproject = some data) (hver : data.projectVersion = some s)
    (hcur : pep440Parse s = some cur)
    (hres : (if nv ∈ (["major", "minor", "patch", "bump"] : List String)
             then bump_version cur nv else validate_version nv) = .ok newObj) :
    (update_version nv t d w
        = (.error (.uvbump (.newVersionNotGreater (pyStr newObj) (pyStr cur))), w))
      ↔ pyLeB newObj cur = true := by
  have hval := validate_of_parse hcur
  constructor
  · intro h
    by_contra hle
    have hle' : pyLeB newObj cur = false := by
      cases hb : pyLeB newObj cur
      · rfl
      · exact absurd hb hle
    simp only [update_version, hpy, hver, hval, hres, hle', Bool.false_eq_true,
      if_false] at h
    rcases hrepo : w.repo with _ | repo
    · rw [hrepo] at h
      simp at h
    · rw [hrepo] at h
      unfold check_git_status at h
      by_cases hun : repo.unstaged
      · simp [hun] at h
      · by_cases hst : repo.staged
        · simp [hun, hst] at h
        · simp only [hun, hst, Bool.false_eq_true, if_false] at h
          cases d
          · cases hsv : w.saveOk
            · rw [hsv] at h
              simp at h
            · rw [hsv] at h
              simp at h
          · simp at h
  · intro hle
    simp only [update_version, hpy, hver, hval, hres, hle, if_true]

/-- Witness for C5 in both directions: requesting `1.0.0` over current
`1.0.0` yields the progression error with the world unchanged, and
requesting `patch` over `1.0.0` does not satisfy `new <= current`. -/
theorem progression_guard_witness :
    update_version "1.0.0" false false
        ⟨some ⟨some "1.0.0", 0⟩, some ⟨false, false, [], []⟩, true⟩
      = (.error (.uvbump (.newVersionNotGreater "1.0.0" "1.0.0")),
         ⟨some ⟨some "1.0.0", 0⟩, some ⟨false, false, [], []⟩, true⟩)
    ∧ pyLeB ⟨0, [1, 0, 1], none, none, none, none⟩ ⟨0, [1, 0, 0], none, none, none, none⟩
      = false := by
  constructor
  · have h := (progression_guard
      ⟨some ⟨some "1.0.0", 0⟩, some ⟨false, false, [], []⟩, true⟩
      ⟨some "1.0.0", 0⟩ "1.0.0" ⟨0, [1, 0, 0], none, none, none, none⟩
      ⟨0, [1, 0, 0], none, none, none, none⟩ "1.0.0" false false
      rfl rfl (by decide) rfl).mpr (by decide)
    exact h
  · decide

/-- C6: past the progression check, a repository with unstaged changes
fails with the unstaged-changes error (checked first, regardless of the
staged flag), otherwise staged changes fail with the staged-changes
error, otherwise the cleanliness check succeeds; the outcome is the
same for `dry_run` true and false (`d` is universally quantified and
never inspected before the check), and the failing run leaves the
world untouched. -/
theorem clean_guard (w : World) (data : TomlDoc) (s : String)
    (cur newObj : PyVersion) (repo : GitRepo) (nv : String) (t d : Bool)
    (hpy : w.pyproject = some data) (hver : data.projectVersion = some s)
    (hcur : pep440Parse s = some cur)
    (hres : (if nv ∈ (["major", "minor", "patch", "bump"] : List String)
             then bump_version cur nv else validate_version nv) = .ok newObj)
    (hgt : pyLeB newObj cur = false) (hrepo : w.repo = some repo) :
    (repo.unstaged = true →
      update_version nv t d w = (.error (.uvbump .unstagedChanges), w))
    ∧ (repo.unstaged = false → repo.staged = true →
      update_version nv t d w = (.error (.uvbump .stagedChanges), w))
    ∧ (repo.unstaged = false → repo.staged = false →
      check_git_status repo = .ok ()) := by
  have hval := validate_of_parse hcur
  refine ⟨?_, ?_, ?_⟩
  · intro hun
    simp only [update_version, hpy, hver, hval, hres, hgt, Bool.false_eq_true,
      if_false, hrepo, check_git_status, hun, if_true]
  · intro hun hst
    simp only [update_version, hpy, hver, hval, hres, hgt, Bool.false_eq_true,
      if_false, hrepo, check_git_status, hun, hst, if_true]
  · intro hun hst
    simp only [check_git_status, hun, hst, Bool.false_eq_true, if_false]

/-- Witness for C6: over current `1.0.0` and request `patch`, a world
with unstaged changes (staged as well, showing priority), one with only
staged changes, and a clean repository, in dry-run mode. -/
theorem clean_guard_witness :
    update_version "patch" false true
        ⟨some ⟨some "1.0.0", 0⟩, some ⟨true, true, [], []⟩, true⟩
      = (.error (.uvbump .unstagedChanges),
         ⟨some ⟨some "1.0.0", 0⟩, some ⟨true, true, [], []⟩, true⟩)
    ∧ update_version "patch" false true
        ⟨some ⟨some "1.0.0", 0⟩, some ⟨false, true, [], []⟩, true⟩
      = (.error (.uvbump .stagedChanges),
         ⟨some ⟨some "1.0.0", 0⟩, some ⟨false, true, [], []⟩, true⟩)
    ∧ check_git_status ⟨false, false, [], []⟩ = .ok () := by
  refine ⟨?_, ?_, ?_⟩
  · exact (clean_guard ⟨some ⟨some "1.0.0", 0⟩, some ⟨true, true, [], []⟩, true⟩
      ⟨some "1.0.0", 0⟩ "1.0.0" ⟨0, [1, 0, 0], none, none, none, none⟩
      ⟨0, [1, 0, 1], none, none, none, none⟩ ⟨true, true, [], []⟩ "patch"
      false true rfl rfl (by decide) rfl (by decide) rfl).1 rfl
  · exact (clean_guard ⟨some ⟨some "1.0.0", 0⟩, some ⟨false, true, [], []⟩, true⟩
      ⟨some "1.0.0", 0⟩ "1.0.0" ⟨0, [1, 0, 0], none, none, none, none⟩
      ⟨0, [1, 0, 1], none, none, none, none⟩ ⟨false, true, [], []⟩ "patch"
      false true rfl rfl (by decide) rfl (by decide) rfl).2.1 rfl rfl
  · exact (clean_guard ⟨some ⟨some "1.0.0", 0⟩, some ⟨false, false, [], []⟩, true⟩
      ⟨some "1.0.0", 0⟩ "1.0.0" ⟨0, [1, 0, 0], none, none, none, none⟩
      ⟨0, [1, 0, 1], none, none, none, none⟩ ⟨false, false, [], []⟩ "patch"
      false true rfl rfl (by decide) rfl (by decide) rfl).2.2 rfl rfl

/-- C7: a dry run that passes every validation returns the computed
result — new version string, commit message equal to it, tag equal to
the prefix plus it, old version from the manifest — with the world
untouched, and a real run (whose write succeeds) returns the very same
result. -/
theorem dry_run_frame (w : World) (data : TomlDoc) (s : String)
    (cur newObj : PyVersion) (repo : GitRepo) (nv : String) (t : Bool)
    (hpy : w.pyproject = some data) (hver : data.projectVersion = some s)
    (hcur : pep440Parse s = some cur)
    (hres : (if nv ∈ (["major", "minor", "patch", "bump"] : List String)
             then bump_version cur nv else validate_version nv) = .ok newObj)
    (hgt : pyLeB newObj cur = false) (hrepo : w.repo = some repo)
    (hun : repo.unstaged = false) (hst : repo.staged = false)
    (hsave : w.saveOk = true) :
    update_version nv t true w =
      (.ok ⟨s, pyStr newObj, pyStr newObj,
        if t then "test-" ++ pyStr newObj else "v" ++ pyStr newObj⟩, w)
    ∧ (update_version nv t false w).1 =
      .ok ⟨s, pyStr newObj, pyStr newObj,
        if t then "test-" ++ pyStr newObj else "v" ++ pyStr newObj⟩ := by
  have hval := validate_of_parse hcur
  constructor
  · simp only [update_version, hpy, hver, hval, hres, hgt, Bool.false_eq_true,
      if_false, hrepo, check_git_status, hun, hst, if_true]
  · simp only [update_version, hpy, hver, hval, hres, hgt, Bool.false_eq_true,
      if_false, hrepo, check_git_status, hun, hst, hsave, if_true]

/-- Witness for C7: current `1.0.0`, request `patch`, clean repository;
the dry run reports `1.0.1`, commit message `1.0.1`, tag `v1.0.1`, and
the real run returns the same result. -/
theorem dry_run_frame_witness :
    update_version "patch" false true
        ⟨some ⟨some "1.0.0", 5⟩, some ⟨false, false, ["Initial"], []⟩, true⟩
      = (.ok ⟨"1.0.0", "1.0.1", "1.0.1", "v1.0.1"⟩,
         ⟨some ⟨some "1.0.0", 5⟩, some ⟨false, false, ["Initial"], []⟩, true⟩)
    ∧ (update_version "patch" false false
        ⟨some ⟨some "1.0.0", 5⟩, some ⟨false, false, ["Initial"], []⟩, true⟩).1
      = .ok ⟨"1.0.0", "1.0.1", "1.0.1", "v1.0.1"⟩ := by
  have h := dry_run_frame
    ⟨some ⟨some "1.0.0", 5⟩, some ⟨false, false, ["Initial"], []⟩, true⟩
    ⟨some "1.0.0", 5⟩ "1.0.0" ⟨0, [1, 0, 0], none, none, none, none⟩
    ⟨0, [1, 0, 1], none, none, none, none⟩ ⟨false, false, ["Initial"], []⟩
    "patch" false rfl rfl (by decide) rfl (by decide) rfl rfl rfl rfl
  exact ⟨h.1, h.2⟩

/-- Shared helper: with the pipeline resolved and `new <= current`,
`update_version` raises the progression error and leaves the world
untouched. -/
theorem update_version_le_error (w : World) (data : TomlDoc) (s : String)
    (cur newObj : PyVersion) (nv : String) (t d : Bool)
    (hpy : w.pyproject = some data) (hver : data.projectVersion = some s)
    (hcur : pep440Parse s = some cur)
    (hres : (if nv ∈ (["major", "minor", "patch", "bump"] : List String)
             then bump_version cur nv else validate_version nv) = .ok newObj)
    (hle : pyLeB newObj cur = true) :
    update_version nv t d w
      = (.error (.uvbump (.newVersionNotGreater (pyStr newObj) (pyStr cur))), w) := by
  have hval := validate_of_parse hcur
  simp only [update_version, hpy, hver, hval, hres, hle, if_true]

/-- C9: on a current version with a nonzero PEP 440 epoch, each of the
`major`, `minor` and `patch` keywords produces an epoch-0 version that
compares strictly below the current one, so `update_version` with that
keyword always fails the progression check and mutates nothing. -/
theorem epoch_bump_regression (v : PyVersion) (k : String)
    (hep : v.epoch ≠ 0) (hk : k ∈ (["major", "minor", "patch"] : List String)) :
    ∃ w, bump_version v k = .ok w ∧ w.epoch = 0
      ∧ keyLtB (cmpkey w) (cmpkey v) = true ∧ pyLeB w v = true
      ∧ ∀ (world : World) (data : TomlDoc) (s : String) (t d : Bool),
          world.pyproject = some data → data.projectVersion = some s →
          pep440Parse s = some v →
          update_version k t d world =
            (.error (.uvbump (.newVersionNotGreater (pyStr w) (pyStr v))), world) := by
  have hlt : ∀ w' : PyVersion, w'.epoch = 0 →
      keyLtB (cmpkey w') (cmpkey v) = true := by
    intro w' hw
    apply keyLtB_of_epoch_lt
    show (cmpkey w').epoch < (cmpkey v).epoch
    unfold cmpkey
    simp only [hw]
    omega
  have main : ∀ w' : PyVersion, bump_version v k = .ok w' → w'.epoch = 0 →
      ∃ w, bump_version v k = .ok w ∧ w.epoch = 0
        ∧ keyLtB (cmpkey w) (cmpkey v) = true ∧ pyLeB w v = true
        ∧ ∀ (world : World) (data : TomlDoc) (s : String) (t d : Bool),
            world.pyproject = some data → data.projectVersion = some s →
            pep440Parse s = some v →
            update_version k t d world =
              (.error (.uvbump (.newVersionNotGreater (pyStr w) (pyStr v))), world) := by
    intro w' hbump hw
    refine ⟨w', hbump, hw, hlt w' hw, pyLeB_of_keyLtB (hlt w' hw), ?_⟩
    intro world data s t d hpy hver hcur
    apply update_version_le_error world data s v w' k t d hpy hver hcur
    · have hk4 : k ∈ (["major", "minor", "patch", "bump"] : List String) := by
        fin_cases hk <;> decide
      rw [if_pos hk4]
      exact hbump
    · exact pyLeB_of_keyLtB (hlt w' hw)
  fin_cases hk
  · exact main _ (bump_major_eq v) rfl
  · exact main _ (bump_minor_eq v) rfl
  · exact main _ (bump_patch_eq v) rfl

/-- Witness for C9: current version `1!2.0.0` with keyword `major`;
the bump yields `3.0.0`, which sorts below `1!2.0.0`, and a full run
fails with the progression error leaving the world unchanged. -/
theorem epoch_bump_regression_witness :
    bump_version ⟨1, [2, 0, 0], none, none, none, none⟩ "major"
      = .ok ⟨0, [3, 0, 0], none, none, none, none⟩
    ∧ update_version "major" false false
        ⟨some ⟨some "1!2.0.0", 0⟩, some ⟨false, false, [], []⟩, true⟩
      = (.error (.uvbump (.newVersionNotGreater "3.0.0" "1!2.0.0")),
         ⟨some ⟨some "1!2.0.0", 0⟩, some ⟨false, false, [], []⟩, true⟩) := by
  obtain ⟨w, hbump, hep, hlt, hle, hupd⟩ :=
    epoch_bump_regression ⟨1, [2, 0, 0], none, none, none, none⟩ "major"
      (by decide) (by decide)
  have h2 := hbump.symm.trans (bump_major_eq ⟨1, [2, 0, 0], none, none, none, none⟩)
  injection h2 with h3
  have hw : w = ⟨0, [3, 0, 0], none, none, none, none⟩ := h3.trans (by decide)
  subst hw
  exact ⟨hbump,
    hupd ⟨some ⟨some "1!2.0.0", 0⟩, some ⟨false, false, [], []⟩, true⟩
      ⟨some "1!2.0.0", 0⟩ "1!2.0.0" false false rfl rfl (by decide)⟩

/-- C1: with `dry_run` false, a run of `update_version` either raises
and leaves the world exactly as it was — in particular on any
validation failure and on a failing manifest write — or performs all
three mutations together: the manifest version field is set to the new
version string, one commit with the commit message is appended, and one
tag with the tag name is appended. -/
theorem mutation_atomic (nv : String) (t : Bool) (w : World) :
    (∃ e, update_version nv t false w = (.error e, w)) ∨
    (∃ info data repo,
      w.pyproject = some data ∧ w.repo = some repo ∧ w.saveOk = true ∧
      update_version nv t false w =
        (.ok info,
         { w with
           pyproject := some { data with projectVersion := some info.new_version }
           repo := some { repo with
                          commits := repo.commits ++ [info.commit_message]
                          tags := repo.tags ++ [info.tag] } })) := by
  rcases hpy : w.pyproject with _ | data
  · exact Or.inl ⟨.uvbump .pyprojectNotFound, by simp only [update_version, hpy]⟩
  rcases hver : data.projectVersion with _ | s
  · exact Or.inl ⟨.uvbump .projectVersionNotFound,
      by simp only [update_version, hpy, hver]⟩
  rcases hval : validate_version s with e | cur
  · exact Or.inl ⟨e, by simp only [update_version, hpy, hver, hval]⟩
  rcases hres : (if nv ∈ (["major", "minor", "patch", "bump"] : List String)
                 then bump_version cur nv else validate_version nv) with e | newObj
  · exact Or.inl ⟨e, by simp only [update_version, hpy, hver, hval, hres]⟩
  by_cases hle : pyLeB newObj cur = true
  · exact Or.inl ⟨.uvbump (.newVersionNotGreater (pyStr newObj) (pyStr cur)),
      by simp only [update_version, hpy, hver, hval, hres, hle, if_true]⟩
  have hle' : pyLeB newObj cur = false := by
    cases hb : pyLeB newObj cur
    · rfl
    · exact absurd hb hle
  rcases hrepo : w.repo with _ | repo
  · exact Or.inl ⟨.uvbump .notAGitRepository,
      by simp only [update_version, hpy, hver, hval, hres, hle',
        Bool.false_eq_true, if_false, hrepo]⟩
  by_cases hun : repo.unstaged = true
  · exact Or.inl ⟨.uvbump .unstagedChanges,
      by simp only [update_version, hpy, hver, hval, hres, hle',
        Bool.false_eq_true, if_false, hrepo, check_git_status, hun, if_true]⟩
  have hun' : repo.unstaged = false := by
    cases hb : repo.unstaged
    · rfl
    · exact absurd hb hun
  by_cases hst : repo.staged = true
  · exact Or.inl ⟨.uvbump .stagedChanges,
      by simp only [update_version, hpy, hver, hval, hres, hle',
        Bool.false_eq_true, if_false, hrepo, check_git_status, hun', hst, if_true]⟩
  have hst' : repo.staged = false := by
    cases hb : repo.staged
    · rfl
    · exact absurd hb hst
  by_cases hsv : w.saveOk = true
  · refine Or.inr ⟨⟨s, pyStr newObj, pyStr newObj,
      if t then "test-" ++ pyStr newObj else "v" ++ pyStr newObj⟩,
      data, repo, rfl, rfl, hsv, ?_⟩
    simp only [update_version, hpy, hver, hval, hres, hle', Bool.false_eq_true,
      if_false, hrepo, check_git_status, hun', hst', hsv, if_true]
  · have hsv' : w.saveOk = false := by
      cases hb : w.saveOk
      · rfl
      · exact absurd hb hsv
    exact Or.inl ⟨.ioError, by simp only [update_version, hpy, hver, hval, hres,
      hle', Bool.false_eq_true, if_false, hrepo, check_git_status, hun', hst',
      hsv', if_true]⟩

end Uvbump
